import Mathlib

/-!
# Slice scheduling of `KernelLauncher` (simulator/KernelLauncher.h)

A shallow embedding of the geometry cursor, the launch control block, the
constructor's slice count and `launchKernel`, followed by theorems about them.

Conventions of the embedding

* `unsigned int` is a natural number below `2 ^ 32`; `+=`, `-=` and `*` reduce
  modulo `2 ^ 32` (`add32`, `sub32`, `mul32`).  Records whose fields are all
  below `2 ^ 32` are the ones a C++ object can hold (`kernel_attr.WF`,
  `kernel_control_block.WF`).
* `while` and `for` loops take a fuel argument and return `none` when the fuel
  runs out; results are stated as "every fuel from some bound on returns ...".
* The loop variable `int i` of `launchKernel` is compared with an
  `unsigned int`, so it is converted to `unsigned int` first; the embedding
  keeps the converted value, incremented modulo `2 ^ 32`.
* `cuLaunchKernel` is a native call; the embedding appends a record of its
  arguments to the list of submissions.  The first three kernel parameters
  alias the offset fields of the geometry (constructor, lines 71-73), so the
  record holds the offsets read at submission time.
* `attr` and `kcb` are pointers; `Memory` maps addresses to objects so that
  two launchers can be placed on the same or on distinct objects.
* `threadFunction` reads and writes `kcb->state` only while holding
  `kernel_lock`, so each locked section is one step of the worker, and an
  interleaving of the two threads is a list of steps.
-/

namespace Sliver

/-! ## Machine arithmetic -/

/-- Unsigned 32-bit addition. -/
def add32 (x y : Nat) : Nat := (x + y) % 2 ^ 32

/-- Unsigned 32-bit subtraction (operands below `2 ^ 32`). -/
def sub32 (x y : Nat) : Nat := (x + 2 ^ 32 - y) % 2 ^ 32

/-- Unsigned 32-bit multiplication. -/
def mul32 (x y : Nat) : Nat := (x * y) % 2 ^ 32

/-! ## Data model (lines 12-49) -/

/-- The struct `kernel_attr` (lines 12-32); `stream` is a handle. -/
structure kernel_attr where
  gridDimX : Nat
  gridDimY : Nat
  gridDimZ : Nat
  blockDimX : Nat
  blockDimY : Nat
  blockDimZ : Nat
  sGridDimX : Nat
  sGridDimY : Nat
  sGridDimZ : Nat
  blockOffsetX : Nat := 0
  blockOffsetY : Nat := 0
  blockOffsetZ : Nat := 0
  sharedMemBytes : Nat
  stream : Nat
  deriving DecidableEq, Repr

/-- Every `unsigned int` field of the geometry is below `2 ^ 32`. -/
def kernel_attr.WF (a : kernel_attr) : Prop :=
  a.gridDimX < 2 ^ 32 ∧ a.gridDimY < 2 ^ 32 ∧ a.gridDimZ < 2 ^ 32 ∧
  a.blockDimX < 2 ^ 32 ∧ a.blockDimY < 2 ^ 32 ∧ a.blockDimZ < 2 ^ 32 ∧
  a.sGridDimX < 2 ^ 32 ∧ a.sGridDimY < 2 ^ 32 ∧ a.sGridDimZ < 2 ^ 32 ∧
  a.blockOffsetX < 2 ^ 32 ∧ a.blockOffsetY < 2 ^ 32 ∧ a.blockOffsetZ < 2 ^ 32 ∧
  a.sharedMemBytes < 2 ^ 32

instance (a : kernel_attr) : Decidable a.WF := by
  unfold kernel_attr.WF; infer_instance

/-- The enum `kstate` (lines 34-40). -/
inductive kstate where
  | INIT
  | MEMCPYHTOD
  | LAUNCH
  | MEMCPYDTOH
  deriving DecidableEq, Repr

/-- The struct `kernel_control_block` (lines 42-49) without its mutex and
condition variable: `launchKernel` does not touch them, and the steps of
`threadFunction` are the sections they delimit. -/
structure kernel_control_block where
  state : kstate := kstate.INIT
  slicesToLaunch : Nat := 1
  totalSlices : Nat
  deriving DecidableEq, Repr

/-- Both `unsigned int` fields of the control block are below `2 ^ 32`. -/
def kernel_control_block.WF (c : kernel_control_block) : Prop :=
  c.slicesToLaunch < 2 ^ 32 ∧ c.totalSlices < 2 ^ 32

instance (c : kernel_control_block) : Decidable c.WF := by
  unfold kernel_control_block.WF; infer_instance

/-- One native submission: the arguments `launchKernel` passes to
`cuLaunchKernel` (lines 95-105) and the three offsets the kernel parameters
point to at that moment. -/
structure Launch where
  gridDimX : Nat
  gridDimY : Nat
  gridDimZ : Nat
  blockDimX : Nat
  blockDimY : Nat
  blockDimZ : Nat
  sharedMemBytes : Nat
  stream : Nat
  offsetX : Nat
  offsetY : Nat
  offsetZ : Nat
  deriving DecidableEq, Repr

/-- The call `cuLaunchKernel(function, attr->sGridDimX, ..., kernelParams, nullptr)`
of lines 95-105, as the record it submits. -/
def cuLaunchKernel (a : kernel_attr) : Launch :=
  { gridDimX := a.sGridDimX, gridDimY := a.sGridDimY, gridDimZ := a.sGridDimZ,
    blockDimX := a.blockDimX, blockDimY := a.blockDimY, blockDimZ := a.blockDimZ,
    sharedMemBytes := a.sharedMemBytes, stream := a.stream,
    offsetX := a.blockOffsetX, offsetY := a.blockOffsetY, offsetZ := a.blockOffsetZ }

/-- The objects one launcher works on: the geometry `*attr`, the control block
`*kcb`, and the native submissions issued so far. -/
structure LaunchState where
  attr : kernel_attr
  kcb : kernel_control_block
  submitted : List Launch
  deriving DecidableEq, Repr

/-! ## The constructor (line 75) -/

/-- The value line 75 stores in `kcb->totalSlices`: the quotient of the two
32-bit products.  Division by zero has no result. -/
def totalSlicesInit (a : kernel_attr) : Option Nat :=
  let num := mul32 (mul32 a.gridDimX a.gridDimY) a.gridDimZ
  let den := mul32 (mul32 a.sGridDimX a.sGridDimY) a.sGridDimZ
  if den = 0 then none else some (num / den)

/-- The effect of the constructor `KernelLauncher::KernelLauncher` on the
control block: only `totalSlices` is assigned (line 75). -/
def construct (a : kernel_attr) (c : kernel_control_block) : Option LaunchState :=
  match totalSlicesInit a with
  | none => none
  | some t => some { attr := a, kcb := { c with totalSlices := t }, submitted := [] }

/-! ## `launchKernel` (lines 90-122) -/

/-- The loop of lines 108-112: carry from X into Y. -/
def whileX : Nat → kernel_attr → Option kernel_attr
  | 0, _ => none
  | fuel + 1, a =>
    if a.blockOffsetX ≥ a.gridDimX then
      whileX fuel { a with blockOffsetX := sub32 a.blockOffsetX a.gridDimX,
                           blockOffsetY := add32 a.blockOffsetY a.sGridDimY }
    else some a

/-- The loop of lines 114-118: carry from Y into Z. -/
def whileY : Nat → kernel_attr → Option kernel_attr
  | 0, _ => none
  | fuel + 1, a =>
    if a.blockOffsetY ≥ a.gridDimY then
      whileY fuel { a with blockOffsetY := sub32 a.blockOffsetY a.gridDimY,
                           blockOffsetZ := add32 a.blockOffsetZ a.sGridDimZ }
    else some a

/-- Lines 107-118: the advance of the offset cursor after one submission. -/
def advance (fuel : Nat) (a : kernel_attr) : Option kernel_attr :=
  match whileX fuel { a with blockOffsetX := add32 a.blockOffsetX a.sGridDimX } with
  | none => none
  | some b => whileY fuel b

/-- The `for` loop of lines 92-119; `i` is the loop variable as the unsigned
value it is compared at. -/
def forLoop : Nat → Nat → LaunchState → Option LaunchState
  | 0, _, _ => none
  | fuel + 1, i, s =>
    if i < min s.kcb.slicesToLaunch s.kcb.totalSlices then
      match advance fuel s.attr with
      | none => none
      | some a =>
        forLoop fuel ((i + 1) % 2 ^ 32)
          { s with attr := a, submitted := s.submitted ++ [cuLaunchKernel s.attr] }
    else some s

/-- The method `KernelLauncher::launchKernel` (lines 90-122). -/
def launchKernel (fuel : Nat) (s : LaunchState) : Option LaunchState :=
  match forLoop fuel 0 s with
  | none => none
  | some t =>
    some { t with kcb := { t.kcb with
      totalSlices := sub32 t.kcb.totalSlices t.kcb.slicesToLaunch } }

/-- Consecutive calls of `launchKernel`, `k` of them. -/
def launchKernelCalls (fuel : Nat) : Nat → LaunchState → Option LaunchState
  | 0, s => some s
  | k + 1, s =>
    match launchKernel fuel s with
    | none => none
    | some t => launchKernelCalls fuel k t

/-! ## Launchers on shared memory -/

/-- Objects by address: the geometries, the control blocks, and the native
submissions issued so far. -/
structure Memory where
  attrs : Nat → kernel_attr
  kcbs : Nat → kernel_control_block
  submitted : List Launch

/-- The fields of class `KernelLauncher` that `launchKernel` uses: the
identifier and the two pointers (lines 124-135). -/
structure KernelLauncher where
  id : Int
  attr : Nat
  kcb : Nat
  deriving DecidableEq, Repr

/-- The method `launchKernel` run by launcher `L` on memory `m`: it reads and
writes `*L.attr` and `*L.kcb` and appends to the submissions. -/
def KernelLauncher.launchKernel (L : KernelLauncher) (fuel : Nat) (m : Memory) :
    Option Memory :=
  match Sliver.launchKernel fuel
      { attr := m.attrs L.attr, kcb := m.kcbs L.kcb, submitted := m.submitted } with
  | none => none
  | some t =>
    some { attrs := Function.update m.attrs L.attr t.attr,
           kcbs := Function.update m.kcbs L.kcb t.kcb,
           submitted := t.submitted }

/-! ## Closed forms -/

/-- What one advance (lines 107-118) computes when both carry loops exit. -/
def advanceClosed (a : kernel_attr) : kernel_attr :=
  let x1 := add32 a.blockOffsetX a.sGridDimX
  let y1 := (a.blockOffsetY + x1 / a.gridDimX * a.sGridDimY) % 2 ^ 32
  { a with blockOffsetX := x1 % a.gridDimX,
           blockOffsetY := y1 % a.gridDimY,
           blockOffsetZ := (a.blockOffsetZ + y1 / a.gridDimY * a.sGridDimZ) % 2 ^ 32 }

/-- The records of `n` consecutive submissions starting at geometry `a`, an
advance after each. -/
def slices : Nat → kernel_attr → List Launch
  | 0, _ => []
  | n + 1, a => cuLaunchKernel a :: slices n (advanceClosed a)

/-- The number of slices one call submits (the loop bound of line 92). -/
def quantum (s : LaunchState) : Nat := min s.kcb.slicesToLaunch s.kcb.totalSlices

/-- What one call of `launchKernel` computes when it returns. -/
def launchKernelClosed (s : LaunchState) : LaunchState :=
  { attr := advanceClosed^[quantum s] s.attr,
    kcb := { s.kcb with totalSlices := sub32 s.kcb.totalSlices s.kcb.slicesToLaunch },
    submitted := s.submitted ++ slices (quantum s) s.attr }

/-- The cumulative number of submissions of `k` consecutive calls. -/
def submittedCount : Nat → LaunchState → Nat
  | 0, _ => 0
  | k + 1, s => quantum s + submittedCount k (launchKernelClosed s)

/-! ## Predicates on states -/

/-- A launcher state that a C++ program can hold and on which both carry loops
exit: all fields are 32-bit values and the X and Y extents are not zero. -/
def Ready (s : LaunchState) : Prop :=
  s.attr.WF ∧ s.kcb.WF ∧ 0 < s.attr.gridDimX ∧ 0 < s.attr.gridDimY

instance (s : LaunchState) : Decidable (Ready s) := by
  unfold Ready; infer_instance

/-- Geometry `b` differs from `a` in the three offsets at most. -/
def offsetFrame (a b : kernel_attr) : Prop :=
  b = { a with blockOffsetX := b.blockOffsetX, blockOffsetY := b.blockOffsetY,
               blockOffsetZ := b.blockOffsetZ }

/-! ## Slices of a divisible geometry -/

/-- The number of slices along X. -/
def nx (a : kernel_attr) : Nat := a.gridDimX / a.sGridDimX

/-- The number of slices along Y. -/
def ny (a : kernel_attr) : Nat := a.gridDimY / a.sGridDimY

/-- The number of slices along Z. -/
def nz (a : kernel_attr) : Nat := a.gridDimZ / a.sGridDimZ

/-- The number of slices of the grid, `(gridX/sliceX)*(gridY/sliceY)*(gridZ/sliceZ)`. -/
def sliceCount (a : kernel_attr) : Nat := nx a * ny a * nz a

/-- Slice extents are at least 1 and divide the full extents. -/
def Divisible (a : kernel_attr) : Prop :=
  1 ≤ a.sGridDimX ∧ 1 ≤ a.sGridDimY ∧ 1 ≤ a.sGridDimZ ∧
  a.sGridDimX ∣ a.gridDimX ∧ a.sGridDimY ∣ a.gridDimY ∧ a.sGridDimZ ∣ a.gridDimZ

instance (a : kernel_attr) : Decidable (Divisible a) := by
  unfold Divisible; infer_instance

/-- The offset is `(0,0,0)`. -/
def AtOrigin (a : kernel_attr) : Prop :=
  a.blockOffsetX = 0 ∧ a.blockOffsetY = 0 ∧ a.blockOffsetZ = 0

instance (a : kernel_attr) : Decidable (AtOrigin a) := by
  unfold AtOrigin; infer_instance

/-- The origin of the `n`-th sub-grid in row-major (X-fastest) order. -/
def origin (a : kernel_attr) (n : Nat) : Nat × Nat × Nat :=
  (n % nx a * a.sGridDimX, n / nx a % ny a * a.sGridDimY, n / (nx a * ny a) * a.sGridDimZ)

/-- The three offsets of a geometry. -/
def offset (a : kernel_attr) : Nat × Nat × Nat :=
  (a.blockOffsetX, a.blockOffsetY, a.blockOffsetZ)

/-- The three offsets a submission was issued with. -/
def Launch.offset (l : Launch) : Nat × Nat × Nat := (l.offsetX, l.offsetY, l.offsetZ)

/-! ## The worker thread (lines 140-165) -/

/-- Full grid (8,1,1), slice (2,1,1), offset (0,0,0). -/
def grid8 : kernel_attr :=
  { gridDimX := 8, gridDimY := 1, gridDimZ := 1, blockDimX := 1, blockDimY := 1,
    blockDimZ := 1, sGridDimX := 2, sGridDimY := 1, sGridDimZ := 1,
    sharedMemBytes := 0, stream := 0 }

/-- A control block as declared (state `INIT`, quantum 1), before the
constructor assigns `totalSlices`. -/
def kcbInit : kernel_control_block := { totalSlices := 0 }

/-- The launcher state the constructor leaves for `grid8`: four slices. -/
def launcher8 : LaunchState :=
  { attr := grid8, kcb := { totalSlices := 4 }, submitted := [] }

/-- A last call with one slice left and a quantum of two. -/
def lastCall : LaunchState :=
  { attr := grid8, kcb := { slicesToLaunch := 2, totalSlices := 1 }, submitted := [] }

/-- Full grid (65536,65536,1), slice (65536,1,1): the grid volume is `2 ^ 32`. -/
def gridWide : kernel_attr :=
  { gridDimX := 65536, gridDimY := 65536, gridDimZ := 1, blockDimX := 1, blockDimY := 1,
    blockDimZ := 1, sGridDimX := 65536, sGridDimY := 1, sGridDimZ := 1,
    sharedMemBytes := 0, stream := 0 }

/-- Two launchers on distinct objects. -/
def launcherA : KernelLauncher := { id := 0, attr := 0, kcb := 0 }

/-- The second launcher. -/
def launcherB : KernelLauncher := { id := 1, attr := 1, kcb := 1 }

/-- A memory in which every geometry is `grid8` with four slices left. -/
def memory8 : Memory :=
  { attrs := fun _ => grid8, kcbs := fun _ => { totalSlices := 4 }, submitted := [] }

/-! ## Lemmas on the carry loops -/

theorem sub32_of_le {x y : Nat} (h : y ≤ x) (hx : x < 2 ^ 32) : sub32 x y = x - y := by
  unfold sub32
  have : x + 2 ^ 32 - y = (x - y) + 2 ^ 32 := by omega
  rw [this, Nat.add_mod_right]
  exact Nat.mod_eq_of_lt (by omega)

theorem add32_lt (x y : Nat) : add32 x y < 2 ^ 32 := Nat.mod_lt _ (by norm_num)

theorem sub32_lt (x y : Nat) : sub32 x y < 2 ^ 32 := Nat.mod_lt _ (by norm_num)

theorem whileX_eq (fuel : Nat) (a : kernel_attr) (hg : 0 < a.gridDimX)
    (hx : a.blockOffsetX < 2 ^ 32) (hy : a.blockOffsetY < 2 ^ 32)
    (hf : a.blockOffsetX / a.gridDimX < fuel) :
    whileX fuel a = some { a with
      blockOffsetX := a.blockOffsetX % a.gridDimX,
      blockOffsetY := (a.blockOffsetY + a.blockOffsetX / a.gridDimX * a.sGridDimY) % 2 ^ 32 } := by
  induction fuel generalizing a with
  | zero => exact absurd hf (Nat.not_lt_zero _)
  | succ fuel ih =>
    unfold whileX
    by_cases h : a.blockOffsetX ≥ a.gridDimX
    · rw [if_pos h]
      have hs : sub32 a.blockOffsetX a.gridDimX = a.blockOffsetX - a.gridDimX :=
        sub32_of_le h hx
      have hd : a.blockOffsetX / a.gridDimX
          = (a.blockOffsetX - a.gridDimX) / a.gridDimX + 1 := Nat.div_eq_sub_div hg h
      have hm : a.blockOffsetX % a.gridDimX
          = (a.blockOffsetX - a.gridDimX) % a.gridDimX := Nat.mod_eq_sub_mod h
      have h1 : sub32 a.blockOffsetX a.gridDimX < 2 ^ 32 := sub32_lt _ _
      have h2 : sub32 a.blockOffsetX a.gridDimX / a.gridDimX < fuel := by
        rw [hs]; omega
      rw [ih { a with blockOffsetX := sub32 a.blockOffsetX a.gridDimX,
                        blockOffsetY := add32 a.blockOffsetY a.sGridDimY } hg h1 (add32_lt _ _) h2]
      simp only [hs, hd, hm, add32, Nat.mod_add_mod]
      congr 3
      ring
    · rw [if_neg h]
      have hlt : a.blockOffsetX < a.gridDimX := by omega
      cases a
      simp_all [Nat.mod_eq_of_lt, Nat.div_eq_of_lt]

theorem whileY_eq (fuel : Nat) (a : kernel_attr) (hg : 0 < a.gridDimY)
    (hy : a.blockOffsetY < 2 ^ 32) (hz : a.blockOffsetZ < 2 ^ 32)
    (hf : a.blockOffsetY / a.gridDimY < fuel) :
    whileY fuel a = some { a with
      blockOffsetY := a.blockOffsetY % a.gridDimY,
      blockOffsetZ := (a.blockOffsetZ + a.blockOffsetY / a.gridDimY * a.sGridDimZ) % 2 ^ 32 } := by
  induction fuel generalizing a with
  | zero => exact absurd hf (Nat.not_lt_zero _)
  | succ fuel ih =>
    unfold whileY
    by_cases h : a.blockOffsetY ≥ a.gridDimY
    · rw [if_pos h]
      have hs : sub32 a.blockOffsetY a.gridDimY = a.blockOffsetY - a.gridDimY :=
        sub32_of_le h hy
      have hd : a.blockOffsetY / a.gridDimY
          = (a.blockOffsetY - a.gridDimY) / a.gridDimY + 1 := Nat.div_eq_sub_div hg h
      have hm : a.blockOffsetY % a.gridDimY
          = (a.blockOffsetY - a.gridDimY) % a.gridDimY := Nat.mod_eq_sub_mod h
      have h1 : sub32 a.blockOffsetY a.gridDimY < 2 ^ 32 := sub32_lt _ _
      have h2 : sub32 a.blockOffsetY a.gridDimY / a.gridDimY < fuel := by
        rw [hs]; omega
      rw [ih { a with blockOffsetY := sub32 a.blockOffsetY a.gridDimY,
                        blockOffsetZ := add32 a.blockOffsetZ a.sGridDimZ } hg h1 (add32_lt _ _) h2]
      simp only [hs, hd, hm, add32, Nat.mod_add_mod]
      congr 3
      ring
    · rw [if_neg h]
      have hlt : a.blockOffsetY < a.gridDimY := by omega
      cases a
      simp_all [Nat.mod_eq_of_lt, Nat.div_eq_of_lt]

/-! ## One advance -/

theorem advanceClosed_WF (a : kernel_attr) (h : a.WF) : (advanceClosed a).WF := by
  obtain ⟨h1, h2, h3, h4, h5, h6, h7, h8, h9, -, -, -, h13⟩ := h
  have hm : ∀ n : Nat, n % 2 ^ 32 < 2 ^ 32 := fun n => Nat.mod_lt _ (by norm_num)
  refine ⟨h1, h2, h3, h4, h5, h6, h7, h8, h9, ?_, ?_, hm _, h13⟩
  · exact lt_of_le_of_lt (Nat.mod_le _ _) (add32_lt _ _)
  · exact lt_of_le_of_lt (Nat.mod_le _ _) (hm _)

theorem advanceClosed_gridDimX (a : kernel_attr) : (advanceClosed a).gridDimX = a.gridDimX := rfl

theorem advanceClosed_gridDimY (a : kernel_attr) : (advanceClosed a).gridDimY = a.gridDimY := rfl

theorem advance_eq (fuel : Nat) (a : kernel_attr) (hw : a.WF) (hgx : 0 < a.gridDimX)
    (hgy : 0 < a.gridDimY) (hf : 2 ^ 32 ≤ fuel) :
    advance fuel a = some (advanceClosed a) := by
  obtain ⟨-, -, -, -, -, -, -, -, -, -, hy, hz, -⟩ := hw
  unfold advance
  have hx1 : add32 a.blockOffsetX a.sGridDimX < 2 ^ 32 := add32_lt _ _
  have hf1 : add32 a.blockOffsetX a.sGridDimX / a.gridDimX < fuel :=
    lt_of_le_of_lt (Nat.div_le_self _ _) (lt_of_lt_of_le hx1 hf)
  rw [whileX_eq fuel { a with blockOffsetX := add32 a.blockOffsetX a.sGridDimX } hgx hx1 hy hf1]
  have hy1 : (a.blockOffsetY + add32 a.blockOffsetX a.sGridDimX / a.gridDimX * a.sGridDimY)
      % 2 ^ 32 < 2 ^ 32 := Nat.mod_lt _ (by norm_num)
  have hf2 : (a.blockOffsetY + add32 a.blockOffsetX a.sGridDimX / a.gridDimX * a.sGridDimY)
      % 2 ^ 32 / a.gridDimY < fuel :=
    lt_of_le_of_lt (Nat.div_le_self _ _) (lt_of_lt_of_le hy1 hf)
  simp only []
  rw [whileY_eq fuel
    { a with
      blockOffsetX := add32 a.blockOffsetX a.sGridDimX % a.gridDimX,
      blockOffsetY := (a.blockOffsetY
        + add32 a.blockOffsetX a.sGridDimX / a.gridDimX * a.sGridDimY) % 2 ^ 32 }
    hgy hy1 hz hf2]
  rfl

theorem iterate_advanceClosed_WF (n : Nat) (a : kernel_attr) (h : a.WF) :
    (advanceClosed^[n] a).WF := by
  induction n generalizing a with
  | zero => exact h
  | succ n ih => rw [Function.iterate_succ_apply]; exact ih _ (advanceClosed_WF a h)

theorem iterate_advanceClosed_gridDimX (n : Nat) (a : kernel_attr) :
    (advanceClosed^[n] a).gridDimX = a.gridDimX := by
  induction n generalizing a with
  | zero => rfl
  | succ n ih => rw [Function.iterate_succ_apply, ih]; rfl

theorem iterate_advanceClosed_gridDimY (n : Nat) (a : kernel_attr) :
    (advanceClosed^[n] a).gridDimY = a.gridDimY := by
  induction n generalizing a with
  | zero => rfl
  | succ n ih => rw [Function.iterate_succ_apply, ih]; rfl

/-! ## One call -/

theorem forLoop_eq (d fuel i : Nat) (s : LaunchState) (hr : Ready s)
    (hd : i + d = quantum s) (hf : 2 ^ 32 + d < fuel) :
    forLoop fuel i s = some { s with
      attr := advanceClosed^[d] s.attr,
      submitted := s.submitted ++ slices d s.attr } := by
  induction d generalizing fuel i s with
  | zero =>
    obtain ⟨fuel, rfl⟩ : ∃ f, fuel = f + 1 := ⟨fuel - 1, by omega⟩
    unfold forLoop
    have : ¬ i < min s.kcb.slicesToLaunch s.kcb.totalSlices := by
      unfold quantum at hd; omega
    rw [if_neg this]
    simp [slices]
  | succ d ih =>
    obtain ⟨fuel, rfl⟩ : ∃ f, fuel = f + 1 := ⟨fuel - 1, by omega⟩
    obtain ⟨hw, hk, hgx, hgy⟩ := hr
    have hq : quantum s < 2 ^ 32 := by
      unfold quantum; have := hk.1; omega
    unfold forLoop
    have : i < min s.kcb.slicesToLaunch s.kcb.totalSlices := by
      unfold quantum at hd; omega
    rw [if_pos this, advance_eq fuel s.attr hw hgx hgy (by omega)]
    have hi : (i + 1) % 2 ^ 32 = i + 1 := Nat.mod_eq_of_lt (by omega)
    simp only [hi]
    rw [ih fuel (i + 1)
      { s with attr := advanceClosed s.attr,
               submitted := s.submitted ++ [cuLaunchKernel s.attr] }
      ⟨advanceClosed_WF _ hw, hk, hgx, hgy⟩ (by unfold quantum at hd ⊢; simpa using by omega)
      (by omega)]
    simp [slices, Function.iterate_succ_apply]

theorem launchKernel_eq (fuel : Nat) (s : LaunchState) (hr : Ready s)
    (hf : 2 ^ 33 ≤ fuel) : launchKernel fuel s = some (launchKernelClosed s) := by
  have hq : quantum s < 2 ^ 32 := by
    unfold quantum; have := hr.2.1.1; omega
  unfold launchKernel
  rw [forLoop_eq (quantum s) fuel 0 s hr (by simp) (by omega)]
  rfl

theorem launchKernelClosed_Ready (s : LaunchState) (hr : Ready s) :
    Ready (launchKernelClosed s) := by
  obtain ⟨hw, hk, hgx, hgy⟩ := hr
  refine ⟨iterate_advanceClosed_WF _ _ hw, ⟨hk.1, sub32_lt _ _⟩, ?_, ?_⟩
  · show 0 < (advanceClosed^[quantum s] s.attr).gridDimX
    rw [iterate_advanceClosed_gridDimX]; exact hgx
  · show 0 < (advanceClosed^[quantum s] s.attr).gridDimY
    rw [iterate_advanceClosed_gridDimY]; exact hgy

theorem iterate_launchKernelClosed_Ready (k : Nat) (s : LaunchState) (hr : Ready s) :
    Ready (launchKernelClosed^[k] s) := by
  induction k generalizing s with
  | zero => exact hr
  | succ k ih => rw [Function.iterate_succ_apply]; exact ih _ (launchKernelClosed_Ready s hr)

theorem launchKernelCalls_eq (fuel k : Nat) (s : LaunchState) (hr : Ready s)
    (hf : 2 ^ 33 ≤ fuel) :
    launchKernelCalls fuel k s = some (launchKernelClosed^[k] s) := by
  induction k generalizing s with
  | zero => rfl
  | succ k ih =>
    unfold launchKernelCalls
    rw [launchKernel_eq fuel s hr hf]
    simp only []
    rw [ih _ (launchKernelClosed_Ready s hr), Function.iterate_succ_apply]

/-! ## More fuel never changes a result -/

theorem whileX_mono {f f' : Nat} {a b : kernel_attr} (h : whileX f a = some b)
    (hle : f ≤ f') : whileX f' a = some b := by
  induction f generalizing f' a with
  | zero => simp [whileX] at h
  | succ f ih =>
    obtain ⟨f', rfl⟩ : ∃ g, f' = g + 1 := ⟨f' - 1, by omega⟩
    unfold whileX at h ⊢
    split
    · rename_i hc
      rw [if_pos hc] at h
      exact ih h (by omega)
    · rename_i hc
      rw [if_neg hc] at h
      exact h

theorem whileY_mono {f f' : Nat} {a b : kernel_attr} (h : whileY f a = some b)
    (hle : f ≤ f') : whileY f' a = some b := by
  induction f generalizing f' a with
  | zero => simp [whileY] at h
  | succ f ih =>
    obtain ⟨f', rfl⟩ : ∃ g, f' = g + 1 := ⟨f' - 1, by omega⟩
    unfold whileY at h ⊢
    split
    · rename_i hc
      rw [if_pos hc] at h
      exact ih h (by omega)
    · rename_i hc
      rw [if_neg hc] at h
      exact h

theorem advance_mono {f f' : Nat} {a b : kernel_attr} (h : advance f a = some b)
    (hle : f ≤ f') : advance f' a = some b := by
  unfold advance at h ⊢
  cases hx : whileX f { a with blockOffsetX := add32 a.blockOffsetX a.sGridDimX } with
  | none => rw [hx] at h; simp at h
  | some c =>
    rw [hx] at h
    rw [whileX_mono hx hle]
    exact whileY_mono h hle

theorem forLoop_mono {f f' i : Nat} {s t : LaunchState} (h : forLoop f i s = some t)
    (hle : f ≤ f') : forLoop f' i s = some t := by
  induction f generalizing f' i s with
  | zero => simp [forLoop] at h
  | succ f ih =>
    obtain ⟨f', rfl⟩ : ∃ g, f' = g + 1 := ⟨f' - 1, by omega⟩
    unfold forLoop at h ⊢
    split
    · rename_i hc
      rw [if_pos hc] at h
      cases ha : advance f s.attr with
      | none => rw [ha] at h; simp at h
      | some a =>
        rw [ha] at h
        rw [advance_mono ha (by omega)]
        exact ih h (by omega)
    · rename_i hc
      rw [if_neg hc] at h
      exact h

theorem launchKernel_mono {f f' : Nat} {s t : LaunchState} (h : launchKernel f s = some t)
    (hle : f ≤ f') : launchKernel f' s = some t := by
  unfold launchKernel at h ⊢
  cases hl : forLoop f 0 s with
  | none => rw [hl] at h; simp at h
  | some u =>
    rw [hl] at h
    rw [forLoop_mono hl hle]
    exact h

theorem launchKernelCalls_mono {f f' k : Nat} {s t : LaunchState}
    (h : launchKernelCalls f k s = some t) (hle : f ≤ f') :
    launchKernelCalls f' k s = some t := by
  induction k generalizing s with
  | zero => exact h
  | succ k ih =>
    unfold launchKernelCalls at h ⊢
    cases hl : launchKernel f s with
    | none => rw [hl] at h; simp at h
    | some u =>
      rw [hl] at h
      rw [launchKernel_mono hl hle]
      exact ih h

/-- A call that returns on a ready state returns the closed form, whatever the
fuel. -/
theorem launchKernel_some {f : Nat} {s t : LaunchState} (hr : Ready s)
    (h : launchKernel f s = some t) : t = launchKernelClosed s := by
  have h1 := launchKernel_mono h (le_max_left f (2 ^ 33))
  rw [launchKernel_eq _ s hr (le_max_right f (2 ^ 33))] at h1
  exact (Option.some.inj h1).symm

theorem launchKernelCalls_some {f k : Nat} {s t : LaunchState} (hr : Ready s)
    (h : launchKernelCalls f k s = some t) : t = launchKernelClosed^[k] s := by
  have h1 := launchKernelCalls_mono h (le_max_left f (2 ^ 33))
  rw [launchKernelCalls_eq _ k s hr (le_max_right f (2 ^ 33))] at h1
  exact (Option.some.inj h1).symm

/-! ## What a call leaves alone -/

theorem offsetFrame_refl (a : kernel_attr) : offsetFrame a a := rfl

theorem offsetFrame_trans {a b c : kernel_attr} (h1 : offsetFrame a b)
    (h2 : offsetFrame b c) : offsetFrame a c := by
  unfold offsetFrame at *
  rw [h2, h1]

theorem whileX_frame {f : Nat} {a b : kernel_attr} (h : whileX f a = some b) :
    offsetFrame a b := by
  induction f generalizing a with
  | zero => simp [whileX] at h
  | succ f ih =>
    unfold whileX at h
    split at h
    · exact offsetFrame_trans (by rfl) (ih h)
    · cases Option.some.inj h; rfl

theorem whileY_frame {f : Nat} {a b : kernel_attr} (h : whileY f a = some b) :
    offsetFrame a b := by
  induction f generalizing a with
  | zero => simp [whileY] at h
  | succ f ih =>
    unfold whileY at h
    split at h
    · exact offsetFrame_trans (by rfl) (ih h)
    · cases Option.some.inj h; rfl

theorem advance_frame {f : Nat} {a b : kernel_attr} (h : advance f a = some b) :
    offsetFrame a b := by
  unfold advance at h
  cases hx : whileX f { a with blockOffsetX := add32 a.blockOffsetX a.sGridDimX } with
  | none => rw [hx] at h; simp at h
  | some c =>
    rw [hx] at h
    exact offsetFrame_trans (offsetFrame_trans (by rfl) (whileX_frame hx)) (whileY_frame h)

theorem forLoop_frame {f i : Nat} {s t : LaunchState} (h : forLoop f i s = some t) :
    t.kcb = s.kcb ∧ offsetFrame s.attr t.attr := by
  induction f generalizing i s with
  | zero => simp [forLoop] at h
  | succ f ih =>
    unfold forLoop at h
    split at h
    · cases ha : advance f s.attr with
      | none => rw [ha] at h; simp at h
      | some a =>
        rw [ha] at h
        obtain ⟨h1, h2⟩ := ih h
        exact ⟨h1, offsetFrame_trans (advance_frame ha) h2⟩
    · cases Option.some.inj h
      exact ⟨rfl, rfl⟩

theorem forLoop_length {f i : Nat} {s t : LaunchState} (h : forLoop f i s = some t)
    (hi : i ≤ quantum s) (hq : quantum s < 2 ^ 32) :
    ∃ l, t.submitted = s.submitted ++ l ∧ l.length = quantum s - i := by
  induction f generalizing i s with
  | zero => simp [forLoop] at h
  | succ f ih =>
    unfold forLoop at h
    split at h
    · rename_i hc
      cases ha : advance f s.attr with
      | none => rw [ha] at h; simp at h
      | some a =>
        rw [ha] at h
        have hc' : i < quantum s := hc
        have hi1 : (i + 1) % 2 ^ 32 = i + 1 := Nat.mod_eq_of_lt (by omega)
        rw [hi1] at h
        obtain ⟨l, hl, hn⟩ := ih h (by show i + 1 ≤ quantum s; omega) hq
        refine ⟨cuLaunchKernel s.attr :: l, ?_, ?_⟩
        · rw [hl]; simp
        · have hq' : quantum (LaunchState.mk a s.kcb
              (s.submitted ++ [cuLaunchKernel s.attr])) = quantum s := rfl
          rw [List.length_cons, hn]
          simp only [hq']
          omega
    · rename_i hc
      have hc' : ¬ i < quantum s := hc
      cases Option.some.inj h
      exact ⟨[], by simp, by simp; omega⟩

/-! ## The cursor on a divisible geometry -/

theorem succ_divmod (n k : Nat) (hk : 0 < k) :
    (n % k + 1 < k → (n + 1) % k = n % k + 1 ∧ (n + 1) / k = n / k) ∧
    (¬ n % k + 1 < k → (n + 1) % k = 0 ∧ (n + 1) / k = n / k + 1) := by
  have hn : n + 1 = (n % k + 1) + k * (n / k) := by
    have := Nat.mod_add_div n k; omega
  have hr : n % k < k := Nat.mod_lt _ hk
  constructor
  · intro h
    rw [hn, Nat.add_mul_mod_self_left, Nat.add_mul_div_left _ _ hk, Nat.mod_eq_of_lt h,
      Nat.div_eq_of_lt h]
    simp
  · intro h
    have he : n % k + 1 = k := by omega
    rw [hn, Nat.add_mul_mod_self_left, Nat.add_mul_div_left _ _ hk, he, Nat.mod_self,
      Nat.div_self hk]
    exact ⟨rfl, Nat.add_comm _ _⟩

/-- One advance of a cursor standing on slice `(i, j, c)` of a divisible
geometry: the odometer step. -/
theorem advanceClosed_step (a : kernel_attr) (kx ky i j c : Nat)
    (hgx : a.gridDimX = kx * a.sGridDimX) (hgy : a.gridDimY = ky * a.sGridDimY)
    (hwx : a.gridDimX < 2 ^ 32) (hwy : a.gridDimY < 2 ^ 32)
    (hsx : 0 < a.sGridDimX) (hsy : 0 < a.sGridDimY)
    (hi : i < kx) (hj : j < ky)
    (hX : a.blockOffsetX = i * a.sGridDimX) (hY : a.blockOffsetY = j * a.sGridDimY)
    (hZ : a.blockOffsetZ = c * a.sGridDimZ % 2 ^ 32) :
    (i + 1 < kx → offset (advanceClosed a)
        = ((i + 1) * a.sGridDimX, j * a.sGridDimY, c * a.sGridDimZ % 2 ^ 32)) ∧
    (¬ i + 1 < kx → j + 1 < ky → offset (advanceClosed a)
        = (0, (j + 1) * a.sGridDimY, c * a.sGridDimZ % 2 ^ 32)) ∧
    (¬ i + 1 < kx → ¬ j + 1 < ky → offset (advanceClosed a)
        = (0, 0, (c + 1) * a.sGridDimZ % 2 ^ 32)) := by
  have hgx0 : 0 < a.gridDimX := by rw [hgx]; exact Nat.mul_pos (by omega) hsx
  have hgy0 : 0 < a.gridDimY := by rw [hgy]; exact Nat.mul_pos (by omega) hsy
  have hx1le : (i + 1) * a.sGridDimX ≤ a.gridDimX := by
    rw [hgx]; exact Nat.mul_le_mul_right _ hi
  have hx1 : add32 a.blockOffsetX a.sGridDimX = (i + 1) * a.sGridDimX := by
    unfold add32
    have hadd : i * a.sGridDimX + a.sGridDimX = (i + 1) * a.sGridDimX := by ring
    rw [hX, hadd]
    exact Nat.mod_eq_of_lt (lt_of_le_of_lt hx1le hwx)
  have hyadd : j * a.sGridDimY + a.sGridDimY = (j + 1) * a.sGridDimY := by ring
  have hYlt : a.blockOffsetY < a.gridDimY := by
    rw [hY, hgy]; exact Nat.mul_lt_mul_of_pos_right hj hsy
  have hy1le : (j + 1) * a.sGridDimY ≤ a.gridDimY := by
    rw [hgy]; exact Nat.mul_le_mul_right _ hj
  have hZm : a.blockOffsetZ % 2 ^ 32 = a.blockOffsetZ := by
    rw [hZ, Nat.mod_mod]
  refine ⟨fun h1 => ?_, fun h1 h2 => ?_, fun h1 h2 => ?_⟩
  · have hlt : (i + 1) * a.sGridDimX < a.gridDimX := by
      rw [hgx]; exact Nat.mul_lt_mul_of_pos_right h1 hsx
    simp only [offset, advanceClosed, hx1, Nat.mod_eq_of_lt hlt, Nat.div_eq_of_lt hlt,
      Nat.zero_mul, Nat.add_zero, Nat.mod_eq_of_lt (lt_trans hYlt hwy),
      Nat.mod_eq_of_lt hYlt, Nat.div_eq_of_lt hYlt, hZm]
    rw [hY, hZ]
  · have he : (i + 1) * a.sGridDimX = a.gridDimX := by
      have : i + 1 = kx := by omega
      rw [this, hgx]
    have hlt : (j + 1) * a.sGridDimY < a.gridDimY := by
      rw [hgy]; exact Nat.mul_lt_mul_of_pos_right h2 hsy
    have hy1 : (a.blockOffsetY + 1 * a.sGridDimY) % 2 ^ 32 = (j + 1) * a.sGridDimY := by
      rw [hY, Nat.one_mul, hyadd]
      exact Nat.mod_eq_of_lt (lt_trans hlt hwy)
    simp only [offset, advanceClosed, hx1, he, Nat.mod_self, Nat.div_self hgx0, hy1,
      Nat.mod_eq_of_lt hlt, Nat.div_eq_of_lt hlt, Nat.zero_mul, Nat.add_zero, hZm]
    rw [hZ]
  · have he : (i + 1) * a.sGridDimX = a.gridDimX := by
      have : i + 1 = kx := by omega
      rw [this, hgx]
    have he2 : (j + 1) * a.sGridDimY = a.gridDimY := by
      have : j + 1 = ky := by omega
      rw [this, hgy]
    have hy1 : (a.blockOffsetY + a.sGridDimY) % 2 ^ 32 = a.gridDimY := by
      rw [hY, hyadd, he2]
      exact Nat.mod_eq_of_lt hwy
    simp only [offset, advanceClosed, hx1, he, Nat.mod_self, Nat.div_self hgx0, Nat.one_mul,
      hy1, Nat.div_self hgy0]
    rw [hZ, Nat.mod_add_mod, Nat.succ_mul]

theorem offsetFrame_fields {a b : kernel_attr} (h : offsetFrame a b) :
    b.gridDimX = a.gridDimX ∧ b.gridDimY = a.gridDimY ∧ b.gridDimZ = a.gridDimZ ∧
    b.blockDimX = a.blockDimX ∧ b.blockDimY = a.blockDimY ∧ b.blockDimZ = a.blockDimZ ∧
    b.sGridDimX = a.sGridDimX ∧ b.sGridDimY = a.sGridDimY ∧ b.sGridDimZ = a.sGridDimZ ∧
    b.sharedMemBytes = a.sharedMemBytes ∧ b.stream = a.stream := by
  unfold offsetFrame at h
  rw [h]
  exact ⟨rfl, rfl, rfl, rfl, rfl, rfl, rfl, rfl, rfl, rfl, rfl⟩

theorem iterate_advanceClosed_frame (n : Nat) (a : kernel_attr) :
    offsetFrame a (advanceClosed^[n] a) := by
  induction n generalizing a with
  | zero => rfl
  | succ n ih =>
    rw [Function.iterate_succ_apply]
    exact offsetFrame_trans (by rfl) (ih (advanceClosed a))

/-- The offset after `n` advances from the origin of a divisible geometry. -/
theorem iterate_offset (a : kernel_attr) (hw : a.WF) (hd : Divisible a)
    (hgx : 0 < a.gridDimX) (hgy : 0 < a.gridDimY) (h0 : AtOrigin a) (n : Nat) :
    offset (advanceClosed^[n] a)
      = (n % nx a * a.sGridDimX, n / nx a % ny a * a.sGridDimY,
         n / (nx a * ny a) * a.sGridDimZ % 2 ^ 32) := by
  obtain ⟨hsx, hsy, -, hdx, hdy, -⟩ := hd
  have hkx : a.gridDimX = nx a * a.sGridDimX := (Nat.div_mul_cancel hdx).symm
  have hky : a.gridDimY = ny a * a.sGridDimY := (Nat.div_mul_cancel hdy).symm
  have hnx : 0 < nx a := Nat.div_pos (Nat.le_of_dvd hgx hdx) hsx
  have hny : 0 < ny a := Nat.div_pos (Nat.le_of_dvd hgy hdy) hsy
  induction n with
  | zero =>
    obtain ⟨hx, hy, hz⟩ := h0
    simp [offset, hx, hy, hz]
  | succ n ih =>
    rw [Function.iterate_succ_apply']
    obtain ⟨f1, f2, -, -, -, -, f7, f8, f9, -, -⟩ :=
      offsetFrame_fields (iterate_advanceClosed_frame n a)
    have hoff : offset (advanceClosed^[n] a)
        = ((advanceClosed^[n] a).blockOffsetX, (advanceClosed^[n] a).blockOffsetY,
           (advanceClosed^[n] a).blockOffsetZ) := rfl
    rw [hoff] at ih
    have hX := congrArg Prod.fst ih
    have hY := congrArg (fun p => p.2.1) ih
    have hZ := congrArg (fun p => p.2.2) ih
    simp only [] at hX hY hZ
    have step := advanceClosed_step (advanceClosed^[n] a) (nx a) (ny a) (n % nx a)
      (n / nx a % ny a) (n / (nx a * ny a))
      (by rw [f1, f7]; exact hkx) (by rw [f2, f8]; exact hky)
      (by rw [f1]; exact hw.1) (by rw [f2]; exact hw.2.1)
      (by rw [f7]; exact hsx) (by rw [f8]; exact hsy)
      (Nat.mod_lt _ hnx) (Nat.mod_lt _ hny)
      (by rw [f7]; exact hX) (by rw [f8]; exact hY) (by rw [f9]; exact hZ)
    rw [f7, f8, f9] at step
    obtain ⟨s1, s2, s3⟩ := step
    have dx := succ_divmod n (nx a) hnx
    have dy := succ_divmod (n / nx a) (ny a) hny
    have hdd : ∀ m : Nat, m / (nx a * ny a) = m / nx a / ny a := fun m =>
      (Nat.div_div_eq_div_mul m (nx a) (ny a)).symm
    by_cases c1 : n % nx a + 1 < nx a
    · rw [s1 c1, (dx.1 c1).1, (dx.1 c1).2, hdd (n + 1), (dx.1 c1).2, ← hdd n]
    · by_cases c2 : n / nx a % ny a + 1 < ny a
      · rw [s2 c1 c2, (dx.2 c1).1, (dx.2 c1).2, hdd (n + 1), (dx.2 c1).2, (dy.1 c2).1,
          (dy.1 c2).2, ← hdd n, Nat.zero_mul]
      · rw [s3 c1 c2, (dx.2 c1).1, (dx.2 c1).2, hdd (n + 1), (dx.2 c1).2, (dy.2 c2).1,
          (dy.2 c2).2, ← hdd n, Nat.zero_mul, Nat.zero_mul]

/-! ## The trace of submissions -/

theorem slices_length (n : Nat) (a : kernel_attr) : (slices n a).length = n := by
  induction n generalizing a with
  | zero => rfl
  | succ n ih => simp [slices, ih]

theorem slices_append (m n : Nat) (a : kernel_attr) :
    slices (m + n) a = slices m a ++ slices n (advanceClosed^[m] a) := by
  induction m generalizing a with
  | zero => simp [slices]
  | succ m ih =>
    have : m + 1 + n = (m + n) + 1 := by omega
    rw [this]
    simp [slices, ih, Function.iterate_succ_apply]

theorem slices_getElem? (m n : Nat) (a : kernel_attr) (h : n < m) :
    (slices m a)[n]? = some (cuLaunchKernel (advanceClosed^[n] a)) := by
  induction m generalizing n a with
  | zero => omega
  | succ m ih =>
    cases n with
    | zero => simp [slices]
    | succ n =>
      simp only [slices, List.getElem?_cons_succ, Function.iterate_succ_apply]
      exact ih n (advanceClosed a) (by omega)

/-- After `k` calls the trace and the cursor are those of `submittedCount`
submissions and advances. -/
theorem iterate_launchKernelClosed (k : Nat) (s : LaunchState) :
    (launchKernelClosed^[k] s).submitted
        = s.submitted ++ slices (submittedCount k s) s.attr ∧
    (launchKernelClosed^[k] s).attr = advanceClosed^[submittedCount k s] s.attr := by
  induction k generalizing s with
  | zero => simp [submittedCount, slices]
  | succ k ih =>
    rw [Function.iterate_succ_apply]
    obtain ⟨h1, h2⟩ := ih (launchKernelClosed s)
    rw [h1, h2]
    simp only [submittedCount]
    constructor
    · rw [slices_append]
      simp [launchKernelClosed]
    · rw [Nat.add_comm, Function.iterate_add_apply]
      rfl

/-! ## Row-major enumeration -/

theorem origin_injective (a : kernel_attr) (hd : Divisible a) (n n' : Nat)
    (h : origin a n = origin a n') : n = n' := by
  obtain ⟨hsx, hsy, hsz, -, -, -⟩ := hd
  unfold origin at h
  simp only [Prod.mk.injEq] at h
  obtain ⟨h1, h2, h3⟩ := h
  have e1 : n % nx a = n' % nx a := Nat.eq_of_mul_eq_mul_right hsx h1
  have e2 : n / nx a % ny a = n' / nx a % ny a := Nat.eq_of_mul_eq_mul_right hsy h2
  have e3 : n / (nx a * ny a) = n' / (nx a * ny a) := Nat.eq_of_mul_eq_mul_right hsz h3
  rw [← Nat.div_div_eq_div_mul, ← Nat.div_div_eq_div_mul] at e3
  have q : n / nx a = n' / nx a := by
    rw [← Nat.mod_add_div (n / nx a) (ny a), ← Nat.mod_add_div (n' / nx a) (ny a), e2, e3]
  rw [← Nat.mod_add_div n (nx a), ← Nat.mod_add_div n' (nx a), e1, q]

theorem origin_surjective (a : kernel_attr) (i j k : Nat) (hi : i < nx a) (hj : j < ny a)
    (hk : k < nz a) :
    ∃ n, n < sliceCount a ∧ origin a n = (i * a.sGridDimX, j * a.sGridDimY, k * a.sGridDimZ) := by
  refine ⟨i + nx a * (j + ny a * k), ?_, ?_⟩
  · unfold sliceCount
    have h1 : j + ny a * k + 1 ≤ ny a * nz a := by
      have : ny a * (k + 1) ≤ ny a * nz a := Nat.mul_le_mul_left _ hk
      rw [Nat.mul_succ] at this
      omega
    have h2 : nx a * (j + ny a * k + 1) ≤ nx a * (ny a * nz a) := Nat.mul_le_mul_left _ h1
    rw [Nat.mul_succ] at h2
    rw [Nat.mul_assoc]
    omega
  · have hx : 0 < nx a := by omega
    have hy : 0 < ny a := by omega
    unfold origin
    rw [← Nat.div_div_eq_div_mul, Nat.add_mul_mod_self_left, Nat.add_mul_div_left _ _ hx,
      Nat.mod_eq_of_lt hi, Nat.div_eq_of_lt hi, Nat.zero_add, Nat.add_mul_mod_self_left,
      Nat.add_mul_div_left _ _ hy, Nat.mod_eq_of_lt hj, Nat.div_eq_of_lt hj, Nat.zero_add]

theorem sliceCount_pos (a : kernel_attr) (hd : Divisible a) (hn : 0 < sliceCount a) :
    0 < a.gridDimX ∧ 0 < a.gridDimY ∧ 0 < a.gridDimZ := by
  unfold sliceCount at hn
  have hx : 0 < nx a := by
    rcases Nat.eq_zero_or_pos (nx a) with h | h
    · rw [h] at hn; simp at hn
    · exact h
  have hy : 0 < ny a := by
    rcases Nat.eq_zero_or_pos (ny a) with h | h
    · rw [h] at hn; simp at hn
    · exact h
  have hz : 0 < nz a := by
    rcases Nat.eq_zero_or_pos (nz a) with h | h
    · rw [h] at hn; simp at hn
    · exact h
  obtain ⟨hsx, hsy, hsz, -, -, -⟩ := hd
  refine ⟨?_, ?_, ?_⟩
  · have := (Nat.div_pos_iff (a := a.gridDimX) (b := a.sGridDimX) (by omega)).1 hx
    omega
  · have := (Nat.div_pos_iff (a := a.gridDimY) (b := a.sGridDimY) (by omega)).1 hy
    omega
  · have := (Nat.div_pos_iff (a := a.gridDimZ) (b := a.sGridDimZ) (by omega)).1 hz
    omega

/-- The offset of the `n`-th record of the trace after any number of calls,
for `n` below the slice count of a divisible geometry started at the origin. -/
theorem trace_offset (a : kernel_attr) (c : kernel_control_block) (hw : a.WF)
    (hd : Divisible a) (h0 : AtOrigin a) (hgx : 0 < a.gridDimX) (hgy : 0 < a.gridDimY)
    (k n : Nat) (l : Launch)
    (hl : (launchKernelClosed^[k] ⟨a, c, []⟩).submitted[n]? = some l) :
    l.offset = (n % nx a * a.sGridDimX, n / nx a % ny a * a.sGridDimY,
      n / (nx a * ny a) * a.sGridDimZ % 2 ^ 32) := by
  rw [(iterate_launchKernelClosed k ⟨a, c, []⟩).1] at hl
  simp only [List.nil_append] at hl
  have hlen : n < submittedCount k ⟨a, c, []⟩ := by
    have := (List.getElem?_eq_some_iff.1 hl).1
    rwa [slices_length] at this
  rw [slices_getElem? _ _ _ hlen] at hl
  cases Option.some.inj hl
  exact iterate_offset a hw hd hgx hgy h0 n

theorem div_lt_nz (a : kernel_attr) (n : Nat) (h : n < sliceCount a) :
    n / (nx a * ny a) < nz a := by
  unfold sliceCount at h
  exact Nat.div_lt_of_lt_mul h

/-- On a divisible 32-bit geometry the Z component of `origin` does not wrap. -/
theorem origin_z_lt (a : kernel_attr) (hd : Divisible a) (n : Nat)
    (h : n < sliceCount a) :
    n / (nx a * ny a) * a.sGridDimZ < a.gridDimZ := by
  obtain ⟨-, -, hsz, -, -, hdz⟩ := hd
  have := div_lt_nz a n h
  calc n / (nx a * ny a) * a.sGridDimZ < nz a * a.sGridDimZ :=
        Nat.mul_lt_mul_of_pos_right this hsz
    _ = a.gridDimZ := Nat.div_mul_cancel hdz

/-! ## C1: Row-major order of the submissions -/

/-- C1. On a geometry with slice extents at least 1 that divide the full
extents, started at offset (0,0,0): after any number of `launchKernel` calls,
on any control block, the `n`-th submission of the trace (for `n` below the
slice count `N`) was issued with offset
`((n mod nx)*sliceX, ((n div nx) mod ny)*sliceY, (n div (nx*ny))*sliceZ)`;
the calls return when `N` is positive; and `n ↦ origin n` meets every
sub-grid origin `(i*sliceX, j*sliceY, k*sliceZ)` exactly once for `n < N`. -/
theorem launchKernel_row_major (a : kernel_attr) (c : kernel_control_block)
    (hw : a.WF) (hc : c.WF) (hd : Divisible a) (h0 : AtOrigin a) :
    (∀ fuel k t, launchKernelCalls fuel k ⟨a, c, []⟩ = some t →
      ∀ n l, n < sliceCount a → t.submitted[n]? = some l →
        l.offset = (n % nx a * a.sGridDimX, n / nx a % ny a * a.sGridDimY,
          n / (nx a * ny a) * a.sGridDimZ)) ∧
    (0 < sliceCount a → ∀ k fuel, 2 ^ 33 ≤ fuel →
      ∃ t, launchKernelCalls fuel k ⟨a, c, []⟩ = some t) ∧
    (∀ n n', n < sliceCount a → n' < sliceCount a → origin a n = origin a n' → n = n') ∧
    (∀ i j k, i < nx a → j < ny a → k < nz a →
      ∃ n, n < sliceCount a ∧
        origin a n = (i * a.sGridDimX, j * a.sGridDimY, k * a.sGridDimZ)) := by
  refine ⟨?_, ?_, fun n n' _ _ h => origin_injective a hd n n' h,
    fun i j k hi hj hk => origin_surjective a i j k hi hj hk⟩
  · intro fuel k t ht n l hn hl
    obtain ⟨hgx, hgy, -⟩ := sliceCount_pos a hd (by omega)
    have hr : Ready ⟨a, c, []⟩ := ⟨hw, hc, hgx, hgy⟩
    rw [launchKernelCalls_some hr ht] at hl
    rw [trace_offset a c hw hd h0 hgx hgy k n l hl]
    have hz := origin_z_lt a hd n hn
    rw [Nat.mod_eq_of_lt (lt_trans hz hw.2.2.1)]
  · intro hn k fuel hf
    obtain ⟨hgx, hgy, -⟩ := sliceCount_pos a hd hn
    exact ⟨_, launchKernelCalls_eq fuel k _ ⟨hw, hc, hgx, hgy⟩ hf⟩

/-- C1 at grid (8,1,1), slice (2,1,1): four calls with quantum 1. -/
theorem launchKernel_row_major_witness :
    grid8.WF ∧ launcher8.kcb.WF ∧ Divisible grid8 ∧ AtOrigin grid8 ∧
    ∃ t, launchKernelCalls 3 4 ⟨grid8, launcher8.kcb, []⟩ = some t ∧
      t.submitted.map Launch.offset = [(0, 0, 0), (2, 0, 0), (4, 0, 0), (6, 0, 0)] ∧
      ∀ n l, n < sliceCount grid8 → t.submitted[n]? = some l →
        l.offset = (n % nx grid8 * 2, n / nx grid8 % ny grid8 * 1,
          n / (nx grid8 * ny grid8) * 1) :=
  ⟨by decide, by decide, by decide, by decide, _, rfl, by decide,
    (launchKernel_row_major grid8 launcher8.kcb (by decide) (by decide) (by decide)
      (by decide)).1 3 4 _ rfl⟩

/-! ## C2: Submissions of one call -/

/-- C2. One call of `launchKernel` that returns has appended exactly
`min(slicesToLaunch, totalSlices)` submissions to the trace; on a 32-bit
geometry with non-zero X and Y extents the call returns, the submissions are
those of `slices` (a submission, then one advance, repeated) and the cursor
has advanced once per submission; with `totalSlices = 0` the call returns on
every geometry with no submission and the offset unchanged. -/
theorem launchKernel_submits_min (s : LaunchState) (hk : s.kcb.WF) :
    (∀ fuel t, launchKernel fuel s = some t →
      ∃ l, t.submitted = s.submitted ++ l ∧
        l.length = min s.kcb.slicesToLaunch s.kcb.totalSlices) ∧
    (s.attr.WF → 0 < s.attr.gridDimX → 0 < s.attr.gridDimY → ∀ fuel, 2 ^ 33 ≤ fuel →
      ∃ t, launchKernel fuel s = some t ∧
        t.submitted
          = s.submitted ++ slices (min s.kcb.slicesToLaunch s.kcb.totalSlices) s.attr ∧
        (slices (min s.kcb.slicesToLaunch s.kcb.totalSlices) s.attr).length
          = min s.kcb.slicesToLaunch s.kcb.totalSlices ∧
        t.attr = advanceClosed^[min s.kcb.slicesToLaunch s.kcb.totalSlices] s.attr ∧
        ∀ j, advance fuel (advanceClosed^[j] s.attr) = some (advanceClosed^[j + 1] s.attr)) ∧
    (s.kcb.totalSlices = 0 → ∀ fuel, 0 < fuel →
      ∃ t, launchKernel fuel s = some t ∧ t.submitted = s.submitted ∧ t.attr = s.attr) := by
  have hq : quantum s < 2 ^ 32 := by
    unfold quantum; have := hk.1; omega
  refine ⟨?_, ?_, ?_⟩
  · intro fuel t ht
    unfold launchKernel at ht
    cases hl : forLoop fuel 0 s with
    | none => rw [hl] at ht; simp at ht
    | some u =>
      rw [hl] at ht
      obtain ⟨l, h1, h2⟩ := forLoop_length hl (Nat.zero_le _) hq
      cases Option.some.inj ht
      exact ⟨l, h1, h2⟩
  · intro hw hgx hgy fuel hf
    refine ⟨_, launchKernel_eq fuel s ⟨hw, hk, hgx, hgy⟩ hf, rfl, slices_length _ _, rfl, ?_⟩
    intro j
    rw [Function.iterate_succ_apply']
    refine advance_eq fuel _ (iterate_advanceClosed_WF j _ hw) ?_ ?_ ?_
    · rw [iterate_advanceClosed_gridDimX]; exact hgx
    · rw [iterate_advanceClosed_gridDimY]; exact hgy
    · have : (2 : Nat) ^ 32 ≤ 2 ^ 33 := by norm_num
      omega
  · intro hz fuel hf
    obtain ⟨fuel, rfl⟩ : ∃ f, fuel = f + 1 := ⟨fuel - 1, by omega⟩
    have hn : ¬ 0 < min s.kcb.slicesToLaunch s.kcb.totalSlices := by
      rw [hz]; simp
    refine ⟨{ s with kcb := { s.kcb with
      totalSlices := sub32 s.kcb.totalSlices s.kcb.slicesToLaunch } }, ?_, rfl, rfl⟩
    unfold launchKernel forLoop
    rw [if_neg hn]

/-- C2 at grid (8,1,1), slice (2,1,1), quantum 1, four slices left. -/
theorem launchKernel_submits_min_witness :
    launcher8.kcb.WF ∧
    ∃ t, launchKernel (2 ^ 33) launcher8 = some t ∧
      t.submitted = [cuLaunchKernel grid8] ∧ offset t.attr = (2, 0, 0) := by
  obtain ⟨t, h1, h2, -, h4, -⟩ :=
    (launchKernel_submits_min launcher8 (by decide)).2.1 (by decide) (by decide) (by decide)
      (2 ^ 33) (le_refl _)
  exact ⟨by decide, t, h1, by rw [h2]; rfl, by rw [h4]; rfl⟩

/-! ## C3: Offsets and full extents -/

/-- C3, counterexample. On grid (8,1,1) with slice (2,1,1), four calls with
quantum 1 make four advances; the fourth leaves the Z offset at 1, which is
the full Z extent, not below it. -/
theorem offsetZ_reaches_extent :
    grid8.WF ∧ Divisible grid8 ∧ AtOrigin grid8 ∧
    0 < grid8.gridDimX ∧ 0 < grid8.gridDimY ∧ 0 < grid8.gridDimZ ∧
    ∃ t, launchKernelCalls 3 4 launcher8 = some t ∧ t.submitted.length = 4 ∧
      t.attr.blockOffsetZ = 1 ∧ ¬ t.attr.blockOffsetZ < t.attr.gridDimZ :=
  ⟨by decide, by decide, by decide, by decide, by decide, by decide, _, rfl, by decide,
    by decide, by decide⟩

/-- C3, as amended. On a 32-bit geometry with positive full and slice extents,
slice extents dividing the full extents, started at offset (0,0,0): any number
of `launchKernel` calls return, and after every advance the X and Y offsets
are below the full extents, the Z offset is below the full Z extent as long as
fewer than `N` advances (`N` the slice count) have been made, and after
exactly `N` advances the offset is `(0, 0, gridDimZ)`.  Record `n` of the
trace holds the offset after `n` advances; the geometry holds the offset
after the last one. -/
theorem offsets_below_extents (a : kernel_attr) (c : kernel_control_block)
    (hw : a.WF) (hc : c.WF) (hd : Divisible a) (h0 : AtOrigin a)
    (hgx : 0 < a.gridDimX) (hgy : 0 < a.gridDimY)
    (k fuel : Nat) (hf : 2 ^ 33 ≤ fuel) :
    ∃ t, launchKernelCalls fuel k ⟨a, c, []⟩ = some t ∧
      t.attr.blockOffsetX < a.gridDimX ∧ t.attr.blockOffsetY < a.gridDimY ∧
      (t.submitted.length < sliceCount a → t.attr.blockOffsetZ < a.gridDimZ) ∧
      (t.submitted.length = sliceCount a → offset t.attr = (0, 0, a.gridDimZ)) ∧
      ∀ n l, t.submitted[n]? = some l →
        l.offsetX < a.gridDimX ∧ l.offsetY < a.gridDimY ∧
        (n < sliceCount a → l.offsetZ < a.gridDimZ) := by
  have hr : Ready ⟨a, c, []⟩ := ⟨hw, hc, hgx, hgy⟩
  obtain ⟨hsx, hsy, hsz, hdx, hdy, hdz⟩ := hd
  have hd' : Divisible a := ⟨hsx, hsy, hsz, hdx, hdy, hdz⟩
  have hkx : nx a * a.sGridDimX = a.gridDimX := Nat.div_mul_cancel hdx
  have hky : ny a * a.sGridDimY = a.gridDimY := Nat.div_mul_cancel hdy
  have hkz : nz a * a.sGridDimZ = a.gridDimZ := Nat.div_mul_cancel hdz
  have hnx : 0 < nx a := Nat.div_pos (Nat.le_of_dvd hgx hdx) hsx
  have hny : 0 < ny a := Nat.div_pos (Nat.le_of_dvd hgy hdy) hsy
  have bx : ∀ n, n % nx a * a.sGridDimX < a.gridDimX := fun n => by
    rw [← hkx]; exact Nat.mul_lt_mul_of_pos_right (Nat.mod_lt _ hnx) hsx
  have by' : ∀ n, n / nx a % ny a * a.sGridDimY < a.gridDimY := fun n => by
    rw [← hky]; exact Nat.mul_lt_mul_of_pos_right (Nat.mod_lt _ hny) hsy
  have bz : ∀ n, n < sliceCount a →
      n / (nx a * ny a) * a.sGridDimZ % 2 ^ 32 < a.gridDimZ := fun n hn => by
    have := origin_z_lt a hd' n hn
    rwa [Nat.mod_eq_of_lt (lt_trans this hw.2.2.1)]
  refine ⟨_, launchKernelCalls_eq fuel k _ hr hf, ?_⟩
  obtain ⟨e1, e2⟩ := iterate_launchKernelClosed k ⟨a, c, []⟩
  have hlen : (launchKernelClosed^[k] ⟨a, c, []⟩).submitted.length
      = submittedCount k ⟨a, c, []⟩ := by
    rw [e1]; simp [slices_length]
  have hoff := iterate_offset a hw hd' hgx hgy h0 (submittedCount k ⟨a, c, []⟩)
  rw [← hlen] at hoff
  have e2' : (launchKernelClosed^[k] ⟨a, c, []⟩).attr
      = advanceClosed^[(launchKernelClosed^[k] ⟨a, c, []⟩).submitted.length] a := by
    rw [hlen]; exact e2
  rw [← e2'] at hoff
  have hX := congrArg Prod.fst hoff
  have hY := congrArg (fun p => p.2.1) hoff
  have hZ := congrArg (fun p => p.2.2) hoff
  simp only [offset] at hX hY hZ
  refine ⟨by rw [hX]; exact bx _, by rw [hY]; exact by' _, ?_, ?_, ?_⟩
  · intro hn
    rw [hZ]; exact bz _ hn
  · intro hn
    rw [hoff, hn]
    have hxy : 0 < nx a * ny a := Nat.mul_pos hnx hny
    have h1 : sliceCount a % nx a = 0 := by
      unfold sliceCount; rw [Nat.mul_assoc]; exact Nat.mul_mod_right _ _
    have h2 : sliceCount a / nx a % ny a = 0 := by
      unfold sliceCount
      rw [Nat.mul_assoc, Nat.mul_div_cancel_left _ hnx]
      exact Nat.mul_mod_right _ _
    have h3 : sliceCount a / (nx a * ny a) = nz a := by
      unfold sliceCount
      exact Nat.mul_div_cancel_left _ hxy
    rw [h1, h2, h3, hkz, Nat.zero_mul, Nat.zero_mul, Nat.mod_eq_of_lt hw.2.2.1]
  · intro n l hl
    have ho := trace_offset a c hw hd' h0 hgx hgy k n l hl
    have oX := congrArg Prod.fst ho
    have oY := congrArg (fun p => p.2.1) ho
    have oZ := congrArg (fun p => p.2.2) ho
    simp only [Launch.offset] at oX oY oZ
    exact ⟨by rw [oX]; exact bx _, by rw [oY]; exact by' _, fun hn => by rw [oZ]; exact bz _ hn⟩

/-- C3 as amended, at grid (8,1,1), slice (2,1,1), after four calls. -/
theorem offsets_below_extents_witness :
    grid8.WF ∧ launcher8.kcb.WF ∧ Divisible grid8 ∧ AtOrigin grid8 ∧
    ∃ t, launchKernelCalls (2 ^ 33) 4 ⟨grid8, launcher8.kcb, []⟩ = some t ∧
      t.attr.blockOffsetX < 8 ∧ t.attr.blockOffsetY < 1 := by
  obtain ⟨t, h1, h2, h3, -⟩ :=
    offsets_below_extents grid8 launcher8.kcb (by decide) (by decide) (by decide) (by decide)
      (by decide) (by decide) 4 (2 ^ 33) (le_refl _)
  exact ⟨by decide, by decide, by decide, by decide, t, h1, h2, h3⟩

/-! ## C4: The initial slice count -/

/-- C4, counterexample. For full grid (65536,65536,1) and slice (65536,1,1)
the slice volume 65536 divides the grid volume `2 ^ 32`, the exact quotient
is 65536, and the constructor stores 0: the 32-bit product of the grid
extents wraps to 0. -/
theorem totalSlices_wraps :
    gridWide.WF ∧
    gridWide.sGridDimX ≠ 0 ∧ gridWide.sGridDimY ≠ 0 ∧ gridWide.sGridDimZ ≠ 0 ∧
    gridWide.sGridDimX * gridWide.sGridDimY * gridWide.sGridDimZ
      ∣ gridWide.gridDimX * gridWide.gridDimY * gridWide.gridDimZ ∧
    gridWide.gridDimX * gridWide.gridDimY * gridWide.gridDimZ
      / (gridWide.sGridDimX * gridWide.sGridDimY * gridWide.sGridDimZ) = 65536 ∧
    (construct gridWide kcbInit).map (fun s => s.kcb.totalSlices) = some 0 ∧
    (construct gridWide kcbInit).map (fun s => s.kcb.totalSlices)
      ≠ some (gridWide.gridDimX * gridWide.gridDimY * gridWide.gridDimZ
        / (gridWide.sGridDimX * gridWide.sGridDimY * gridWide.sGridDimZ)) := by
  decide

/-- C4, as amended. When the slice extents are non-zero, the grid volume and
the slice volume are both below `2 ^ 32`, and the slice volume divides the
grid volume, the constructor stores the exact quotient
`(gridX*gridY*gridZ) / (sliceX*sliceY*sliceZ)` in `totalSlices`. -/
theorem totalSlices_exact (a : kernel_attr) (c : kernel_control_block)
    (hs : a.sGridDimX ≠ 0 ∧ a.sGridDimY ≠ 0 ∧ a.sGridDimZ ≠ 0)
    (hg : a.gridDimX * a.gridDimY * a.gridDimZ < 2 ^ 32)
    (hv : a.sGridDimX * a.sGridDimY * a.sGridDimZ < 2 ^ 32)
    (hdvd : a.sGridDimX * a.sGridDimY * a.sGridDimZ
      ∣ a.gridDimX * a.gridDimY * a.gridDimZ) :
    ∃ s, construct a c = some s ∧
      s.kcb.totalSlices
        = a.gridDimX * a.gridDimY * a.gridDimZ
          / (a.sGridDimX * a.sGridDimY * a.sGridDimZ) ∧
      s.kcb.totalSlices * (a.sGridDimX * a.sGridDimY * a.sGridDimZ)
        = a.gridDimX * a.gridDimY * a.gridDimZ := by
  have m3 : ∀ x y z : Nat, x * y * z < 2 ^ 32 → mul32 (mul32 x y) z = x * y * z := by
    intro x y z h
    unfold mul32
    rw [Nat.mod_mul_mod]
    exact Nat.mod_eq_of_lt h
  have hpos : a.sGridDimX * a.sGridDimY * a.sGridDimZ ≠ 0 :=
    Nat.mul_ne_zero (Nat.mul_ne_zero hs.1 hs.2.1) hs.2.2
  refine ⟨LaunchState.mk a { c with totalSlices :=
    a.gridDimX * a.gridDimY * a.gridDimZ / (a.sGridDimX * a.sGridDimY * a.sGridDimZ) } [],
    ?_, rfl, Nat.div_mul_cancel hdvd⟩
  unfold construct totalSlicesInit
  simp only [m3 _ _ _ hg, m3 _ _ _ hv, if_neg hpos]

/-- C4 as amended, at grid (8,1,1), slice (2,1,1): four slices. -/
theorem totalSlices_exact_witness :
    (grid8.sGridDimX ≠ 0 ∧ grid8.sGridDimY ≠ 0 ∧ grid8.sGridDimZ ≠ 0) ∧
    grid8.gridDimX * grid8.gridDimY * grid8.gridDimZ < 2 ^ 32 ∧
    grid8.sGridDimX * grid8.sGridDimY * grid8.sGridDimZ < 2 ^ 32 ∧
    ∃ s, construct grid8 kcbInit = some s ∧ s.kcb.totalSlices = 4 := by
  obtain ⟨s, h1, h2, -⟩ :=
    totalSlices_exact grid8 kcbInit (by decide) (by decide) (by decide) (by decide)
  exact ⟨by decide, by decide, by decide, s, h1, by rw [h2]; decide⟩

/-! ## C5: The counter after a call -/

/-- C5, counterexample. A call made with `totalSlices = 1` and
`slicesToLaunch = 2` leaves `totalSlices = 4294967295`, not the negative
number `1 - 2`. -/
theorem totalSlices_not_negative :
    ∃ t, launchKernel 3 lastCall = some t ∧
      (t.kcb.totalSlices : Int) = 4294967295 ∧
      (t.kcb.totalSlices : Int)
        ≠ (lastCall.kcb.totalSlices : Int) - (lastCall.kcb.slicesToLaunch : Int) :=
  ⟨_, rfl, by decide, by decide⟩

/-- C5, as amended. After one call of `launchKernel` the counter
`totalSlices` is `totalSlices_before - slicesToLaunch` reduced modulo
`2 ^ 32` (the quantum, not the number submitted, is subtracted): it is the
difference when `slicesToLaunch ≤ totalSlices_before`, and
`2 ^ 32 + totalSlices_before - slicesToLaunch`, a positive number, when
`totalSlices_before < slicesToLaunch`.  The call returns on every 32-bit
geometry with non-zero X and Y extents. -/
theorem totalSlices_after_call (s : LaunchState) (hk : s.kcb.WF) :
    (∀ fuel t, launchKernel fuel s = some t →
      t.kcb.totalSlices = (s.kcb.totalSlices + 2 ^ 32 - s.kcb.slicesToLaunch) % 2 ^ 32 ∧
      (s.kcb.slicesToLaunch ≤ s.kcb.totalSlices →
        t.kcb.totalSlices = s.kcb.totalSlices - s.kcb.slicesToLaunch) ∧
      (s.kcb.totalSlices < s.kcb.slicesToLaunch →
        t.kcb.totalSlices = 2 ^ 32 + s.kcb.totalSlices - s.kcb.slicesToLaunch ∧
        0 < t.kcb.totalSlices)) ∧
    (s.attr.WF → 0 < s.attr.gridDimX → 0 < s.attr.gridDimY → ∀ fuel, 2 ^ 33 ≤ fuel →
      ∃ t, launchKernel fuel s = some t) := by
  obtain ⟨hq, ht⟩ := hk
  constructor
  · intro fuel t h
    unfold launchKernel at h
    cases hl : forLoop fuel 0 s with
    | none => rw [hl] at h; simp at h
    | some u =>
      rw [hl] at h
      obtain ⟨hkcb, -⟩ := forLoop_frame hl
      cases Option.some.inj h
      show sub32 u.kcb.totalSlices u.kcb.slicesToLaunch = _ ∧
        (_ → sub32 u.kcb.totalSlices u.kcb.slicesToLaunch = _) ∧
        (_ → sub32 u.kcb.totalSlices u.kcb.slicesToLaunch = _ ∧
          0 < sub32 u.kcb.totalSlices u.kcb.slicesToLaunch)
      rw [hkcb]
      unfold sub32
      refine ⟨rfl, fun hle => ?_, fun hlt => ?_⟩
      · have : s.kcb.totalSlices + 2 ^ 32 - s.kcb.slicesToLaunch
            = (s.kcb.totalSlices - s.kcb.slicesToLaunch) + 2 ^ 32 := by omega
        rw [this, Nat.add_mod_right]
        exact Nat.mod_eq_of_lt (by omega)
      · have : (s.kcb.totalSlices + 2 ^ 32 - s.kcb.slicesToLaunch) % 2 ^ 32
            = 2 ^ 32 + s.kcb.totalSlices - s.kcb.slicesToLaunch := by
          rw [Nat.add_comm]
          exact Nat.mod_eq_of_lt (by omega)
        rw [this]
        exact ⟨rfl, by omega⟩
  · intro hw hgx hgy fuel hf
    exact ⟨_, launchKernel_eq fuel s ⟨hw, ⟨hq, ht⟩, hgx, hgy⟩ hf⟩

/-- C5 as amended, at `totalSlices = 1`, `slicesToLaunch = 2`. -/
theorem totalSlices_after_call_witness :
    lastCall.kcb.WF ∧
    ∃ t, launchKernel 3 lastCall = some t ∧ t.kcb.totalSlices = 2 ^ 32 + 1 - 2 :=
  ⟨by decide, _, rfl,
    (((totalSlices_after_call lastCall (by decide)).1 3 _ rfl).2.2 (by decide)).1⟩

/-! ## C6: The (8,1,1) / (2,1,1) schedule -/

/-- C6, counterexample. For full grid (8,1,1), slice (2,1,1) and quantum 1,
after the fourth call the Z offset is 1, not 0: the last advance carries from
X through Y into Z. -/
theorem grid8_fourth_call_carries :
    ∃ s t, construct grid8 kcbInit = some s ∧ launchKernelCalls 3 4 s = some t ∧
      t.attr.blockOffsetZ = 1 ∧ t.attr.blockOffsetZ ≠ 0 :=
  ⟨_, _, rfl, rfl, by decide, by decide⟩

/-- C6, as amended. For the launcher constructed with full grid (8,1,1),
slice (2,1,1), quantum 1 and offset (0,0,0), and every `k ≤ 4`: `k` calls of
`launchKernel` return, the X offset is `(2*k) mod 8`, the Y offset is 0,
`totalSlices` is `4 - k`, and the Z offset is 0 after up to three calls and 1
after the fourth. -/
theorem grid8_schedule (k : Nat) (hk : k ≤ 4) (fuel : Nat) (hf : 3 ≤ fuel) :
    ∃ s t, construct grid8 kcbInit = some s ∧ launchKernelCalls fuel k s = some t ∧
      t.attr.blockOffsetX = 2 * k % 8 ∧ t.attr.blockOffsetY = 0 ∧
      (k ≤ 3 → t.attr.blockOffsetZ = 0) ∧ (k = 4 → t.attr.blockOffsetZ = 1) ∧
      t.kcb.totalSlices = 4 - k := by
  interval_cases k
  all_goals
    refine ⟨_, _, rfl, launchKernelCalls_mono (f := 3) rfl hf, ?_⟩
    decide

/-- C6 as amended, at `k = 4` with fuel 5. -/
theorem grid8_schedule_witness :
    ∃ s t, construct grid8 kcbInit = some s ∧ launchKernelCalls 5 4 s = some t ∧
      t.attr.blockOffsetX = 2 * 4 % 8 ∧ t.attr.blockOffsetY = 0 ∧
      (4 ≤ 3 → t.attr.blockOffsetZ = 0) ∧ (4 = 4 → t.attr.blockOffsetZ = 1) ∧
      t.kcb.totalSlices = 4 - 4 :=
  grid8_schedule 4 (by decide) 5 (by decide)

/-! ## C7: Frame of a call -/

/-- C7. For launchers `A` and `B` whose geometry and control-block pointers
are distinct, a call of `launchKernel` on `A` that returns leaves `A`'s full,
slice and block extents, shared-memory byte count, stream, `slicesToLaunch`
and state tag unchanged and leaves `B`'s geometry and control block
unchanged; the call returns when `A`'s objects are 32-bit with non-zero X and
Y extents. -/
theorem launchKernel_frame (A B : KernelLauncher) (hA : A.attr ≠ B.attr)
    (hK : A.kcb ≠ B.kcb) (m : Memory) :
    (∀ fuel m', A.launchKernel fuel m = some m' →
      (m'.attrs A.attr).gridDimX = (m.attrs A.attr).gridDimX ∧
      (m'.attrs A.attr).gridDimY = (m.attrs A.attr).gridDimY ∧
      (m'.attrs A.attr).gridDimZ = (m.attrs A.attr).gridDimZ ∧
      (m'.attrs A.attr).blockDimX = (m.attrs A.attr).blockDimX ∧
      (m'.attrs A.attr).blockDimY = (m.attrs A.attr).blockDimY ∧
      (m'.attrs A.attr).blockDimZ = (m.attrs A.attr).blockDimZ ∧
      (m'.attrs A.attr).sGridDimX = (m.attrs A.attr).sGridDimX ∧
      (m'.attrs A.attr).sGridDimY = (m.attrs A.attr).sGridDimY ∧
      (m'.attrs A.attr).sGridDimZ = (m.attrs A.attr).sGridDimZ ∧
      (m'.attrs A.attr).sharedMemBytes = (m.attrs A.attr).sharedMemBytes ∧
      (m'.attrs A.attr).stream = (m.attrs A.attr).stream ∧
      (m'.kcbs A.kcb).slicesToLaunch = (m.kcbs A.kcb).slicesToLaunch ∧
      (m'.kcbs A.kcb).state = (m.kcbs A.kcb).state ∧
      m'.attrs B.attr = m.attrs B.attr ∧ m'.kcbs B.kcb = m.kcbs B.kcb) ∧
    ((m.attrs A.attr).WF → (m.kcbs A.kcb).WF →
      0 < (m.attrs A.attr).gridDimX → 0 < (m.attrs A.attr).gridDimY →
      ∀ fuel, 2 ^ 33 ≤ fuel → ∃ m', A.launchKernel fuel m = some m') := by
  constructor
  · intro fuel m' h
    unfold KernelLauncher.launchKernel at h
    cases hc : Sliver.launchKernel fuel
        { attr := m.attrs A.attr, kcb := m.kcbs A.kcb, submitted := m.submitted } with
    | none => rw [hc] at h; simp at h
    | some t =>
      rw [hc] at h
      cases Option.some.inj h
      unfold Sliver.launchKernel at hc
      cases hl : forLoop fuel 0
          { attr := m.attrs A.attr, kcb := m.kcbs A.kcb, submitted := m.submitted } with
      | none => rw [hl] at hc; simp at hc
      | some u =>
        rw [hl] at hc
        obtain ⟨hkcb, hfr⟩ := forLoop_frame hl
        cases Option.some.inj hc
        obtain ⟨f1, f2, f3, f4, f5, f6, f7, f8, f9, f10, f11⟩ := offsetFrame_fields hfr
        dsimp only
        rw [Function.update_same, Function.update_same,
          Function.update_noteq (Ne.symm hA), Function.update_noteq (Ne.symm hK)]
        exact ⟨f1, f2, f3, f4, f5, f6, f7, f8, f9, f10, f11,
          by rw [hkcb], by rw [hkcb], rfl, rfl⟩
  · intro hw hk hgx hgy fuel hf
    unfold KernelLauncher.launchKernel
    rw [launchKernel_eq fuel _ ⟨hw, hk, hgx, hgy⟩ hf]
    exact ⟨_, rfl⟩

/-- C7 at two launchers on addresses 0 and 1 of `memory8`. -/
theorem launchKernel_frame_witness :
    launcherA.attr ≠ launcherB.attr ∧ launcherA.kcb ≠ launcherB.kcb ∧
    ∃ m', launcherA.launchKernel 3 memory8 = some m' ∧
      m'.attrs launcherB.attr = grid8 ∧ (m'.attrs launcherA.attr).blockOffsetX = 2 ∧
      (m'.kcbs launcherA.kcb).totalSlices = 3 ∧ (m'.kcbs launcherB.kcb).totalSlices = 4 :=
  ⟨by decide, by decide, _, rfl,
    ((launchKernel_frame launcherA launcherB (by decide) (by decide) memory8).1 3 _
      rfl).2.2.2.2.2.2.2.2.2.2.2.2.2.1,
    by decide, by decide, by decide⟩

/-! ## C8: The state tag under the worker and the teardown request -/

/-- C9, the code at the failing input. The launcher constructed for full grid
(8,1,1) and slice (2,1,1) starts with `totalSlices = 4`; six calls with
quantum 1 return with five submissions: the fifth call submits nothing and
wraps `totalSlices` from 0 to `2 ^ 32 - 1`, and the sixth call submits a
slice again, at offset `(0, 0, 1)` outside the grid. -/
theorem launchKernel_oversubmits :
    ∃ s t, construct grid8 kcbInit = some s ∧ s.kcb.totalSlices = 4 ∧
      s.kcb.slicesToLaunch = 1 ∧
      launchKernelCalls 3 6 s = some t ∧ t.submitted.length = 5 ∧
      t.submitted.map Launch.offset
        = [(0, 0, 0), (2, 0, 0), (4, 0, 0), (6, 0, 0), (0, 0, 1)] ∧
      t.kcb.totalSlices = 2 ^ 32 - 2 :=
  ⟨_, _, rfl, by decide, by decide, rfl, by decide, by decide, by decide⟩

/-! ## C10: Termination -/

/-- C10. On a 32-bit geometry whose full X and Y extents are non-zero, with
any slice extents, offset, `slicesToLaunch` and `totalSlices`, one call of
`launchKernel` returns (the same result for every fuel from `2 ^ 33` on), and
each carry loop exits: the X loop within `blockOffsetX / gridDimX` iterations
and the Y loop within `blockOffsetY / gridDimY` iterations, on every 32-bit
geometry with that extent non-zero. -/
theorem launchKernel_terminates (s : LaunchState) (hw : s.attr.WF) (hk : s.kcb.WF)
    (hgx : 0 < s.attr.gridDimX) (hgy : 0 < s.attr.gridDimY) :
    (∃ t, ∀ fuel, 2 ^ 33 ≤ fuel → launchKernel fuel s = some t) ∧
    (∀ b : kernel_attr, b.WF → 0 < b.gridDimX →
      ∃ b', ∀ fuel, b.blockOffsetX / b.gridDimX < fuel → whileX fuel b = some b') ∧
    (∀ b : kernel_attr, b.WF → 0 < b.gridDimY →
      ∃ b', ∀ fuel, b.blockOffsetY / b.gridDimY < fuel → whileY fuel b = some b') := by
  refine ⟨⟨_, fun fuel hf => launchKernel_eq fuel s ⟨hw, hk, hgx, hgy⟩ hf⟩, ?_, ?_⟩
  · intro b hb hg
    obtain ⟨-, -, -, -, -, -, -, -, -, hx, hy, -, -⟩ := hb
    exact ⟨_, fun fuel hf => whileX_eq fuel b hg hx hy hf⟩
  · intro b hb hg
    obtain ⟨-, -, -, -, -, -, -, -, -, -, hy, hz, -⟩ := hb
    exact ⟨_, fun fuel hf => whileY_eq fuel b hg hy hz hf⟩

/-- C10 at grid (8,1,1), slice (2,1,1), quantum 1, four slices left. -/
theorem launchKernel_terminates_witness :
    launcher8.attr.WF ∧ launcher8.kcb.WF ∧
    0 < launcher8.attr.gridDimX ∧ 0 < launcher8.attr.gridDimY ∧
    ∃ t, ∀ fuel, 2 ^ 33 ≤ fuel → launchKernel fuel launcher8 = some t :=
  ⟨by decide, by decide, by decide, by decide,
    (launchKernel_terminates launcher8 (by decide) (by decide) (by decide) (by decide)).1⟩

end Sliver
